import Mathlib

/-!
Verification of the Avito real-estate scraper (`src/main.py`).

The development shallowly embeds the pure helpers of `AvitoParse`
(`get_next_page_url`, `__extract_area`, the `int(...)` price validation)
and models the stateful control loop (`__get_url`, `__paginator`,
`__parse_page`, `parse`) as explicit state-passing functions over a
scripted driver, recording driver navigations, sleeps and buffer
flushes in an event trace.
-/

/-! ## Character classes

`isPyDigit` models `\d` of the regular expression in `__extract_area`
(ASCII decimal digits) and the digits accepted by `int(...)`.
`isPySpace` models Python's whitespace set, used both by `\s` in the
regular expression and by the stripping performed by `int(...)`. -/

def isPyDigit (c : Char) : Bool :=
  0x30 ≤ c.toNat && c.toNat ≤ 0x39

def isPySpace (c : Char) : Bool :=
  let n := c.toNat
  n == 0x20 || (0x9 ≤ n && n ≤ 0xd) || (0x1c ≤ n && n ≤ 0x1f) ||
  n == 0x85 || n == 0xa0 || n == 0x1680 || (0x2000 ≤ n && n ≤ 0x200a) ||
  n == 0x2028 || n == 0x2029 || n == 0x202f || n == 0x205f || n == 0x3000

/-! ## Python `int(str)` (line 160 of `src/main.py` and
`int(query_params.get('p', [1])[0])` at line 107)

`int` strips surrounding whitespace, accepts an optional sign and a
non-empty digit string in which single underscores may separate digit
groups.  On any other input it raises `ValueError`, modelled by
`none`. -/

def digitsVal (ds : List Char) : Nat :=
  ds.foldl (fun a c => a * 10 + (c.toNat - 0x30)) 0

/-- `udOk cs afterDigit` accepts `digit (underscore? digit)*`:
`afterDigit` records whether the previous character was a digit
(underscores are only legal between digits). -/
def udOk : List Char → Bool → Bool
  | [], afterDigit => afterDigit
  | c :: rest, true =>
      if isPyDigit c then udOk rest true
      else if c = '_' then udOk rest false
      else false
  | c :: rest, false =>
      if isPyDigit c then udOk rest true else false

def pyIntDigits (cs : List Char) : Option Int :=
  if udOk cs false then some (Int.ofNat (digitsVal (cs.filter isPyDigit)))
  else none

def pyIntParse (s : String) : Option Int :=
  let cs := ((s.data.dropWhile isPySpace).reverse.dropWhile isPySpace).reverse
  match cs with
  | '+' :: rest => pyIntDigits rest
  | '-' :: rest => (pyIntDigits rest).map (fun n => -n)
  | rest => pyIntDigits rest

/-! ## URL query parsing (`urllib.parse.urlparse` / `parse_qs`)

`get_next_page_url` (lines 103-115) calls `urlparse` and `parse_qs`.
`urlparse` removes ASCII tab/CR/LF, cuts the fragment at the first
`#` and takes the query as everything after the first remaining `?`.
`parse_qs` splits the query on `&`, drops pairs without `=` or with an
empty value, and decodes `+` as space and `%XX` percent-escapes
(UTF-8, invalid sequences replaced). -/

def hexVal (c : Char) : Option Nat :=
  if 0x30 ≤ c.toNat ∧ c.toNat ≤ 0x39 then some (c.toNat - 0x30)
  else if 0x41 ≤ c.toNat ∧ c.toNat ≤ 0x46 then some (c.toNat - 0x41 + 10)
  else if 0x61 ≤ c.toNat ∧ c.toNat ≤ 0x66 then some (c.toNat - 0x61 + 10)
  else none

/-- A scalar value encodable as a `Char` (no surrogates, below
0x110000). -/
def charOk (n : Nat) : Bool :=
  (n < 0xd800) || (0xe000 ≤ n && n < 0x110000)

/-- Classify a UTF-8 start byte: either a complete character (ASCII,
or U+FFFD for an illegal start byte), or the decoder state for a
multi-byte sequence: continuation bytes still needed, accumulated
value, and the smallest scalar value the sequence length may encode. -/
def utf8Start (b : Nat) : Char ⊕ (Nat × Nat × Nat) :=
  if b < 0x80 then .inl (Char.ofNat b)
  else if 0xc2 ≤ b ∧ b ≤ 0xdf then .inr (1, b - 0xc0, 0x80)
  else if 0xe0 ≤ b ∧ b ≤ 0xef then .inr (2, b - 0xe0, 0x800)
  else if 0xf0 ≤ b ∧ b ≤ 0xf4 then .inr (3, b - 0xf0, 0x10000)
  else .inl '\ufffd'

/-- UTF-8 decoding of percent-decoded bytes, with U+FFFD replacing
invalid sequences (Python decodes percent escapes with
`errors='replace'`).  The second argument is the decoder state inside
a multi-byte sequence. -/
def utf8Loop : List Nat → Option (Nat × Nat × Nat) → List Char
  | [], none => []
  | [], some _ => ['\ufffd']
  | b :: bs, none =>
    (match utf8Start b with
     | .inl c => c :: utf8Loop bs none
     | .inr st => utf8Loop bs (some st))
  | b :: bs, some (need, acc, mn) =>
    if 0x80 ≤ b ∧ b ≤ 0xbf then
      let acc2 := acc * 64 + (b - 0x80)
      if need = 1 then
        (if mn ≤ acc2 ∧ charOk acc2 then Char.ofNat acc2 else '\ufffd') :: utf8Loop bs none
      else utf8Loop bs (some (need - 1, acc2, mn))
    else
      '\ufffd' ::
      (match utf8Start b with
       | .inl c => c :: utf8Loop bs none
       | .inr st => utf8Loop bs (some st))

def utf8Dec (bs : List Nat) : List Char := utf8Loop bs none

/-- One UTF-8 encoded character as bytes (used to turn the literal,
non-escaped characters of a query string into bytes before decoding). -/
def utf8Enc (c : Char) : List Nat :=
  let n := c.toNat
  if n < 0x80 then [n]
  else if n < 0x800 then [0xc0 + n / 64, 0x80 + n % 64]
  else if n < 0x10000 then [0xe0 + n / 4096, 0x80 + (n / 64) % 64, 0x80 + n % 64]
  else [0xf0 + n / 262144, 0x80 + (n / 4096) % 64, 0x80 + (n / 64) % 64, 0x80 + n % 64]

/-- Percent-decoding to bytes, as a character-at-a-time state machine:
`%XY` with two hex digits becomes the byte `XY`; a `%` not followed by
two hex digits stays literal; all other characters contribute their
UTF-8 bytes.  The state is `none` (normal), `some none` (just saw
`%`), or `some (some c1)` (saw `%` and a first hex digit `c1`). -/
def pctLoop : List Char → Option (Option Char) → List Nat
  | [], none => []
  | [], some none => utf8Enc '%'
  | [], some (some c1) => utf8Enc '%' ++ utf8Enc c1
  | c :: rest, none =>
    if c = '%' then pctLoop rest (some none)
    else utf8Enc c ++ pctLoop rest none
  | c :: rest, some none =>
    if (hexVal c).isSome then pctLoop rest (some (some c))
    else if c = '%' then utf8Enc '%' ++ pctLoop rest (some none)
    else utf8Enc '%' ++ utf8Enc c ++ pctLoop rest none
  | c :: rest, some (some c1) =>
    (match hexVal c1, hexVal c with
     | some h1, some h2 => (h1 * 16 + h2) :: pctLoop rest none
     | _, _ =>
       utf8Enc '%' ++ utf8Enc c1 ++
       (if c = '%' then pctLoop rest (some none) else utf8Enc c ++ pctLoop rest none))

def pctBytes (cs : List Char) : List Nat := pctLoop cs none

/-- `urllib.parse.unquote_plus`: `+` becomes a space, then percent
escapes are decoded as UTF-8 bytes. -/
def unquotePlus (cs : List Char) : List Char :=
  utf8Dec (pctBytes (cs.map (fun c => if c = '+' then ' ' else c)))

/-- The query component `urlparse(url).query`: remove tab/CR/LF, drop
the fragment (everything from the first `#`), and take everything
after the first `?` (empty if there is none). -/
def urlQuery (url : String) : List Char :=
  let cs := url.data.filter (fun c => c ≠ '\t' ∧ c ≠ '\r' ∧ c ≠ '\n')
  let noFrag := cs.takeWhile (· ≠ '#')
  match noFrag.dropWhile (· ≠ '?') with
  | _ :: rest => rest
  | [] => []

/-- Split a `name=value` pair at the first `=`; `none` when there is
no `=` (such pairs are skipped by `parse_qs`). -/
def splitFirstEq (cs : List Char) : Option (List Char × List Char) :=
  if '=' ∈ cs then some (cs.takeWhile (· ≠ '='), (cs.dropWhile (· ≠ '=')).tail)
  else none

/-- `urllib.parse.parse_qs` restricted to what the code consumes: the
ordered list of decoded `(name, value)` pairs (blank values dropped,
`keep_blank_values=False`). -/
def parseQsl (q : List Char) : List (List Char × List Char) :=
  (q.splitOn '&').foldr
    (fun pair acc =>
      if pair = [] then acc
      else
        match splitFirstEq pair with
        | none => acc
        | some (n, v) =>
          if v = [] then acc else (unquotePlus n, unquotePlus v) :: acc)
    []

/-- `parse_qs(...).get('p', [1])[0]` when `'p'` is present: the first
value recorded for the parameter `p`. -/
def getP (url : String) : Option String :=
  (parseQsl (urlQuery url)).findSome?
    (fun nv => if nv.1 = ['p'] then some (String.mk nv.2) else none)

/-- `AvitoParse.get_next_page_url` (lines 103-115): read `p` (default
`1` when absent), increment, and rebuild `{base_url}?p={next}`; if
`int(...)` raises (unparsable `p` value) the `except` branch returns
the URL unchanged. -/
def get_next_page_url (base_url url : String) : String :=
  match getP url with
  | none => base_url ++ "?p=" ++ toString ((1 : Int) + 1)
  | some s =>
    match pyIntParse s with
    | some k => base_url ++ "?p=" ++ toString (k + 1)
    | none => url

/-! ## `AvitoParse.__extract_area` (lines 199-204)

The regular expression is
`(\d+(?:[.,]\d+)?)\s*(м²|кв\.?м|квадратных метров)` with
`re.IGNORECASE`.  `re.search` scans start positions left to right; at
a position the number part is matched greedily (no productive
backtracking is possible because a digit can follow neither the
fraction separator slot, the whitespace slot, nor the unit slot), the
whitespace `\s*` is skipped, and one of the three unit alternatives
must follow.  `match.group(1)` is the numeric part. -/

/-- Case-insensitive character match of a text character `c` against
a lowercase pattern character `p` (Cyrillic а-я and Latin a-z fold
their uppercase forms). -/
def ciEq (p c : Char) : Bool :=
  p == c
  || (0x430 ≤ p.toNat && p.toNat ≤ 0x44f && c.toNat + 0x20 == p.toNat)
  || (0x61 ≤ p.toNat && p.toNat ≤ 0x7a && c.toNat + 0x20 == p.toNat)

/-- Case-insensitive literal: does `cs` start with the pattern `ps`? -/
def ciPref : List Char → List Char → Bool
  | [], _ => true
  | _ :: _, [] => false
  | p :: ps, c :: cs => ciEq p c && ciPref ps cs

/-- The unit alternation `м²|кв\.?м|квадратных метров` matching at the
head of `cs` (case-insensitively). -/
def matchUnit (cs : List Char) : Bool :=
  ciPref "м²".data cs
  || (ciPref "кв".data cs &&
      (match cs.drop 2 with
       | '.' :: rest2 => ciPref "м".data rest2 || ciPref "м".data ('.' :: rest2)
       | rest => ciPref "м".data rest))
  || ciPref "квадратных метров".data cs

/-- The numeric group `\d+(?:[.,]\d+)?` at the head of `cs`: the
captured characters and the remaining input. -/
def matchNum (cs : List Char) : Option (List Char × List Char) :=
  let ds := cs.takeWhile isPyDigit
  let rest := cs.dropWhile isPyDigit
  if ds = [] then none
  else
    match rest with
    | c :: rest2 =>
      if c = '.' ∨ c = ',' then
        let ds2 := rest2.takeWhile isPyDigit
        if ds2 = [] then some (ds, rest)
        else some (ds ++ c :: ds2, rest2.dropWhile isPyDigit)
      else some (ds, rest)
    | [] => some (ds, [])

/-- The whole pattern anchored at the head of `cs`: number, optional
whitespace, unit.  Returns the captured numeric group. -/
def matchAt (cs : List Char) : Option (List Char) :=
  match matchNum cs with
  | none => none
  | some nr => if matchUnit (nr.2.dropWhile isPySpace) then some nr.1 else none

/-- `re.search`: first start position (left to right) where the
pattern matches. -/
def searchArea : List Char → Option (List Char)
  | [] => none
  | c :: cs =>
    match matchAt (c :: cs) with
    | some num => some num
    | none => searchArea cs

/-- `AvitoParse.__extract_area`: the numeric capture of the first
match, or the empty string. -/
def extract_area (text : String) : String :=
  match searchArea text.data with
  | some num => String.mk num
  | none => ""

/-! Declarative descriptions of the pattern, used to state the claims
about `extract_area` independently of the scanning algorithm. -/

/-- The optional fraction `(?:[.,]\d+)?`: empty, or a separator
followed by at least one digit. -/
def FracOk (frac : List Char) : Prop :=
  frac = [] ∨
  ∃ c ds, frac = c :: ds ∧ (c = '.' ∨ c = ',') ∧ ds ≠ [] ∧ ∀ d ∈ ds, isPyDigit d

/-- A match of the pattern at the head of `cs` capturing `num`:
digits, an optional fraction, arbitrary (possibly empty) whitespace,
then a square-meter unit token. -/
def SpecMatchAt (cs num : List Char) : Prop :=
  ∃ ds frac sp rest,
    cs = ds ++ frac ++ sp ++ rest ∧ ds ≠ [] ∧ (∀ d ∈ ds, isPyDigit d) ∧
    FracOk frac ∧ (∀ c ∈ sp, isPySpace c) ∧ matchUnit rest ∧ num = ds ++ frac

/-- Modelled from the spec: the claim's strict reading of the pattern,
in which the unit token must follow the number immediately, with no
whitespace in between.  Used to compare the claimed behaviour with the
code's actual whitespace-tolerant pattern. -/
def specStrictMatchAt (cs : List Char) : Option (List Char) :=
  match matchNum cs with
  | none => none
  | some nr => if matchUnit nr.2 then some nr.1 else none

/-! ## The scraping loop (`__parse_page`, `__paginator`, `parse`,
`__get_url`)

The browser driver is an external collaborator; its behaviour is
scripted.  Each per-ad attempt of `__parse_page`'s retry loop either
raises `StaleElementReferenceException` while reading the summary
fields, raises some other exception (missing element, index error),
or yields the raw field values.  A run state records the record
buffer `self.data`, an event trace of driver navigations, sleeps,
collection-list re-resolutions and XML flushes, a clock counting
completed per-ad iterations (used to time an external stop signal),
and how many random numbers were drawn. -/

structure AdFields where
  name : String
  description : String
  url : String
  price : String
  date_public : String
  address : String
deriving DecidableEq, Repr

inductive Attempt where
  | stale
  | err
  | fields (f : AdFields)
deriving DecidableEq, Repr

/-- The scripted outcomes of the successive attempts at one ad index
(the element collection is re-resolved freshly on every attempt, so
outcomes may differ between attempts). -/
structure AdScript where
  att : Nat → Attempt

structure AdRecord where
  name : String
  url : String
  price : String
  area : String
  date_public : String
  address : String
deriving DecidableEq, Repr

inductive Ev where
  | navTo (url : String)
  | sleepSec (n : Nat)
  | resolve
  | append (r : AdRecord)
  | flush (rs : List AdRecord)
deriving DecidableEq, Repr

structure St where
  buf : List AdRecord
  trace : List Ev
  clock : Nat
  rused : Nat
deriving DecidableEq, Repr

def initSt : St := ⟨[], [], 0, 0⟩

def emit (st : St) (e : Ev) : St := { st with trace := st.trace ++ [e] }

/-- `random.randint a b`: a value in `[a, b]` drawn from the oracle
stream `rng`, advancing the stream counter. -/
def randint (a b : Nat) (rng : Nat → Nat) (st : St) : Nat × St :=
  (a + rng st.rused % (b - a + 1), { st with rused := st.rused + 1 })

/-- `self.stop_event and self.stop_event.is_set()`: the external stop
request becomes visible once `t` per-ad iterations have completed
(`none` scripts a run with no stop request). -/
def stopSet (stopAt : Option Nat) (clock : Nat) : Bool :=
  match stopAt with
  | none => false
  | some t => t ≤ clock

/-- The record assembled in `ad_data` (lines 139-174): the area is
extracted from the title first, from the description only if the
title yields nothing. -/
def mkRecord (f : AdFields) : AdRecord :=
  let a := extract_area f.name
  let area := if a = "" then extract_area f.description else a
  ⟨f.name, f.url, f.price, area, f.date_public, f.address⟩

/-- The tail of a successful attempt (lines 172-187): visit the detail
page (`__parse_detail` opens the ad URL and sleeps 2s), append the
record, flush and clear the buffer when it has reached 2000 records,
then navigate back to the list URL and sleep 1s. -/
def adSuccess (f : AdFields) (curUrl : String) (st : St) : St :=
  let st := emit (emit st (.navTo f.url)) (.sleepSec 2)
  let r := mkRecord f
  let st := { st with buf := st.buf ++ [r], trace := st.trace ++ [.append r] }
  let st := if 2000 ≤ st.buf.length then { st with trace := st.trace ++ [.flush st.buf], buf := [] } else st
  emit (emit st (.navTo curUrl)) (.sleepSec 1)

/-- The `while retries > 0` loop of lines 132-197 for one ad index:
each iteration re-resolves the element collection (line 135, the
`resolve` event); a staleness fault costs one retry and sleeps 1s; any
other fault breaks out; a successful read whose price fails `int(...)`
(line 160) raises `ValueError` into the generic handler and breaks;
otherwise the attempt completes via `adSuccess`. -/
def runAdAux (att : Nat → Attempt) (curUrl : String) : Nat → Nat → St → St
  | 0, _, st => st
  | retries + 1, k, st =>
    let st := emit st .resolve
    match att k with
    | .stale => runAdAux att curUrl retries (k + 1) (emit st (.sleepSec 1))
    | .err => st
    | .fields f =>
      if (pyIntParse f.price).isNone then st
      else adSuccess f curUrl st

/-- One ad index of the `for i in range(len(ads_elements))` loop:
the retry loop with a budget of 3, after which the clock ticks (one
per-ad iteration finished). -/
def runAd (a : AdScript) (curUrl : String) (st : St) : St :=
  let st := runAdAux a.att curUrl 3 0 st
  { st with clock := st.clock + 1 }

/-- The iteration over all ad indices (lines 131-197). -/
def parsePageAds (ads : List AdScript) (curUrl : String) (st : St) : St :=
  ads.foldl (fun s a => runAd a curUrl s) st

/-- What one call of `__parse_page` finds: either a scripted ad list,
or an exception from `driver.get_current_url()` / `find_elements`
(lines 121-124, outside any `try`, so it propagates to the caller). -/
inductive PageOutcome where
  | ads (l : List AdScript)
  | raise

/-- `__parse_page` (lines 117-197).  The second component is `false`
when an exception escaped.  The stop check at line 118 precedes all
work; an empty ad list just returns. -/
def parsePage (stopAt : Option Nat) (po : PageOutcome) (curUrl : String) (st : St) : St × Bool :=
  if stopSet stopAt st.clock then (st, true)
  else
    match po with
    | .raise => (st, false)
    | .ads l => if l.isEmpty then (st, true) else (parsePageAds l curUrl st, true)

/-- The `for i in range(self.count)` loop of `__paginator` (lines
82-94): stop check, scroll plus 1s pause, `__parse_page`, a random 2-4s
inter-page pause, then `open_next_btn` navigates to
`get_next_page_url` of the current URL.  An exception from
`__parse_page` propagates immediately. -/
def paginatorAux (stopAt : Option Nat) (script : Nat → PageOutcome) (rng : Nat → Nat)
    (base : String) : Nat → Nat → String → St → St × Bool
  | 0, _, _, st => (st, true)
  | c + 1, pageIdx, url, st =>
    if stopSet stopAt st.clock then (st, true)
    else
      let st := emit st (.sleepSec 1)
      match parsePage stopAt (script pageIdx) url st with
      | (st', false) => (st', false)
      | (st', true) =>
        let ds := randint 2 4 rng st'
        let st2 := emit ds.2 (.sleepSec ds.1)
        let nurl := get_next_page_url base url
        let st3 := emit st2 (.navTo nurl)
        paginatorAux stopAt script rng base c (pageIdx + 1) nurl st3

/-- The trailing `if self.data: self.__save_to_xml()` of lines 95-96
(also the body of the `except` handler of `parse`, lines 268-269):
save the buffer if it is non-empty.  `__save_to_xml` does not clear
`self.data`; the run is ending. -/
def finalFlush (st : St) : St :=
  if st.buf = [] then st else { st with trace := st.trace ++ [.flush st.buf] }

/-- `__paginator` (lines 80-96): the page loop followed by the final
save.  When an exception escapes the loop it also escapes
`__paginator` (the final save at line 95 does not run). -/
def paginatorE (stopAt : Option Nat) (script : Nat → PageOutcome) (rng : Nat → Nat)
    (base : String) (count : Nat) (url : String) (st : St) : St × Bool :=
  match paginatorAux stopAt script rng base count 0 url st with
  | (st', true) => (finalFlush st', true)
  | (st', false) => (st', false)

structure ParseResult where
  final : St
  released : Bool
  raised : Bool
deriving DecidableEq, Repr

/-- `AvitoParse.parse` (lines 255-270): inside `with SB(...)`, run
`__get_url` (modelled as the initial, successfully completing
navigation) and `__paginator`; any exception is caught by the
`except` at line 266, which saves the buffer if non-empty and does not
re-raise; the `with` block releases the browser session on both
paths. -/
def parseRun (stopAt : Option Nat) (script : Nat → PageOutcome) (rng : Nat → Nat)
    (base : String) (count : Nat) (url : String) (st : St) : ParseResult :=
  let st := emit st (.navTo url)
  match paginatorE stopAt script rng base count url st with
  | (st', true) => ⟨st', true, false⟩
  | (st', false) => ⟨finalFlush st', true, false⟩

/-! ## `__get_url` (lines 48-78)

Scripted as the sequence of page states the driver finds on the
successive navigations to `self.url`: a soft-block page (title
contains the access-restricted marker), good content, a content wait
timeout, or a navigation error.  The soft-block branch sleeps
`random.randint(10, 20)` seconds and retries; the timeout and error
branches sleep 5 seconds and retry; all retries are unbounded, so the
model carries fuel and returns `none` when it runs out. -/

inductive PageLoad where
  | blocked
  | content
  | timeoutFault
  | navError

def getUrlAux (script : Nat → PageLoad) (rng : Nat → Nat) (url : String) :
    Nat → Nat → St → Option St
  | 0, _, _ => none
  | fuel + 1, k, st =>
    let st := emit st (.navTo url)
    match script k with
    | .blocked => getUrlAux script rng url fuel (k + 1) (emit st (.sleepSec (10 + rng k % 11)))
    | .content => some st
    | .timeoutFault => getUrlAux script rng url fuel (k + 1) (emit st (.sleepSec 5))
    | .navError => getUrlAux script rng url fuel (k + 1) (emit st (.sleepSec 5))

def getUrlRun (script : Nat → PageLoad) (rng : Nat → Nat) (url : String)
    (fuel : Nat) (st : St) : Option St :=
  getUrlAux script rng url fuel 0 st

/-- A driver that reports the soft-block page on the first `n`
navigations and serves content afterwards. -/
def blockScript (n : Nat) : Nat → PageLoad :=
  fun k => if k < n then .blocked else .content

/-! Trace observations. -/

def navCount (evs : List Ev) : Nat :=
  (evs.filter (fun e => match e with | .navTo _ => true | _ => false)).length

def slpCount (evs : List Ev) : Nat :=
  (evs.filter (fun e => match e with | .sleepSec _ => true | _ => false)).length

def flushCount (evs : List Ev) : Nat :=
  (evs.filter (fun e => match e with | .flush _ => true | _ => false)).length

/-! ## Concrete fixtures used by witnesses and counterexamples -/

def goodF : AdFields :=
  ⟨"Квартира, 45 м²", "", "https://x/1", "3500000", "10 января", "ул. Ленина"⟩

def goodAd : AdScript := ⟨fun _ => .fields goodF⟩

def staleAd : AdScript := ⟨fun _ => .stale⟩

def errAd : AdScript := ⟨fun _ => .err⟩

def badPriceF : AdFields := ⟨"n", "", "https://x/2", "цена", "", ""⟩

def zeroRng : Nat → Nat := fun _ => 0

/-- A run whose first page has three well-formed ads and whose later
pages are empty. -/
def c5script : Nat → PageOutcome := fun i => if i = 0 then .ads [goodAd, goodAd, goodAd] else .ads []

/-- A run whose first page collects one record and whose second page
raises from `find_elements` (outside the per-ad `try`). -/
def c9script : Nat → PageOutcome := fun i => if i = 0 then .ads [goodAd] else .raise

/-- A state whose buffer holds 1999 records, one below the flush
threshold. -/
def bigSt : St := ⟨List.replicate 1999 (mkRecord goodF), [], 0, 0⟩

/-! ## Run invariants (claims C3, C9) -/

/-- The price of a record parses as an integer (the `int(price)` check
at line 160 succeeded when the record was built). -/
def PriceOk (r : AdRecord) : Prop := (pyIntParse r.price).isSome

/-- The data-integrity invariant of a run state: every buffered record
and every record ever appended or flushed has an integer-parsable
price, and every appended record is still in the buffer or already
part of some flush event (no collected record is lost). -/
def RunInv (st : St) : Prop :=
  (∀ r ∈ st.buf, PriceOk r) ∧
  (∀ r, Ev.append r ∈ st.trace →
    PriceOk r ∧ (r ∈ st.buf ∨ ∃ rs, Ev.flush rs ∈ st.trace ∧ r ∈ rs)) ∧
  (∀ rs, Ev.flush rs ∈ st.trace → ∀ r ∈ rs, PriceOk r)

/-! ## List and trace helper lemmas -/

theorem takeWhile_app_of {p : Char → Bool} :
    ∀ (l t : List Char), (∀ c ∈ l, p c = true) → (∀ c, t.head? = some c → p c = false) →
      (l ++ t).takeWhile p = l ∧ (l ++ t).dropWhile p = t
  | [], t, _, h2 => by
    cases t with
    | nil => simp
    | cons c t' =>
      have := h2 c (by simp)
      simp [List.takeWhile, List.dropWhile, this]
  | a :: l, t, h1, h2 => by
    have ha := h1 a (by simp)
    have ih := takeWhile_app_of l t (fun c hc => h1 c (by simp [hc])) h2
    simp [List.takeWhile, List.dropWhile, ha, ih.1, ih.2]

theorem mem_takeWhile_p {p : Char → Bool} :
    ∀ (l : List Char), ∀ c ∈ l.takeWhile p, p c = true
  | [] => by simp
  | a :: l => by
    intro c hc
    by_cases ha : p a
    · rw [List.takeWhile_cons_of_pos ha] at hc
      rcases List.mem_cons.mp hc with h | h
      · exact h ▸ ha
      · exact mem_takeWhile_p l c h
    · rw [List.takeWhile_cons_of_neg ha] at hc
      cases hc

theorem dropWhile_head_false {p : Char → Bool} (t : List Char)
    (h : ∀ c, t.head? = some c → p c = false) : t.dropWhile p = t := by
  cases t with
  | nil => rfl
  | cons c t' => simp [List.dropWhile, h c (by simp)]

theorem navCount_nil : navCount [] = 0 := rfl

theorem navCount_cons_nav (u : String) (evs : List Ev) :
    navCount (Ev.navTo u :: evs) = navCount evs + 1 := by
  simp [navCount, List.filter]

theorem navCount_cons_sleep (n : Nat) (evs : List Ev) :
    navCount (Ev.sleepSec n :: evs) = navCount evs := by
  simp [navCount, List.filter]

theorem slpCount_nil : slpCount [] = 0 := rfl

theorem slpCount_cons_nav (u : String) (evs : List Ev) :
    slpCount (Ev.navTo u :: evs) = slpCount evs := by
  simp [slpCount, List.filter]

theorem slpCount_cons_sleep (n : Nat) (evs : List Ev) :
    slpCount (Ev.sleepSec n :: evs) = slpCount evs + 1 := by
  simp [slpCount, List.filter]

theorem flushCount_app (a b : List Ev) :
    flushCount (a ++ b) = flushCount a + flushCount b := by
  simp [flushCount, List.filter_append]

theorem flushCount_flush (rs : List AdRecord) : flushCount [Ev.flush rs] = 1 := rfl

/-! ## Claim C1 — pagination URL -/

/-- Claim C1 counterexample: for the current URL
`https://e/f?p=abc` the `p` value fails integer parsing; the claim
says the value then defaults to 1, making the result
`https://e/f?p=2`, but `get_next_page_url` returns the current URL
unchanged (the `int` failure is caught by the `except` branch). -/
theorem c1_cex :
    get_next_page_url "https://e/f" "https://e/f?p=abc" = "https://e/f?p=abc" ∧
    get_next_page_url "https://e/f" "https://e/f?p=abc" ≠ "https://e/f?p=2" := by
  decide

/-- Claim C1 (amended): if the current URL's query has a `p`
parameter that parses as an integer `k`, `get_next_page_url` returns
`{base_url}?p={k+1}`, discarding all other query parameters; when `p`
is absent it defaults to 1 and the result is `{base_url}?p=2`; a `p`
value that fails integer parsing is a parse failure, and the current
URL is returned unchanged (it does not default to 1). -/
theorem c1_next_page_url (base url : String) :
    (getP url = none → get_next_page_url base url = base ++ "?p=2") ∧
    (∀ s k, getP url = some s → pyIntParse s = some k →
      get_next_page_url base url = base ++ "?p=" ++ toString (k + 1)) ∧
    (∀ s, getP url = some s → pyIntParse s = none →
      get_next_page_url base url = url) := by
  refine ⟨fun h => ?_, fun s k hs hk => ?_, fun s hs hk => ?_⟩
  · have h2 : toString ((1 : Int) + 1) = "2" := by decide
    simp only [get_next_page_url, h, h2]
    rw [String.append_assoc, show ("?p=" ++ "2" : String) = "?p=2" from by decide]
  · simp only [get_next_page_url, hs, hk]
  · simp only [get_next_page_url, hs, hk]

/-- Witness for C1: the URL `https://a/b?p=3&q=7` carries `p = 3`, and
the next-page URL is `https://a/b?p=4` with the `q` parameter
discarded. -/
theorem c1_next_page_url_witness :
    getP "https://a/b?p=3&q=7" = some "3" ∧ pyIntParse "3" = some 3 ∧
    get_next_page_url "https://a/b" "https://a/b?p=3&q=7" =
      "https://a/b" ++ "?p=" ++ toString ((3 : Int) + 1) :=
  ⟨by decide, by decide,
    (c1_next_page_url "https://a/b" "https://a/b?p=3&q=7").2.1 "3" 3 (by decide) (by decide)⟩

/-! ## Claim C8 — soft-block retry in `__get_url` -/

/-- The behaviour of `__get_url` on a driver that reports the
soft-block title on navigations `k, …, k+m-1` and content on
navigation `k+m`: it completes, performing `m+1` navigations, all to
the same URL, and `m` backoff sleeps, each of a duration in `[10, 20]`
seconds. -/
theorem getUrl_blocked_aux (script : Nat → PageLoad) (rng : Nat → Nat) (url : String) :
    ∀ m k fuel st, (∀ j, j < m → script (k + j) = .blocked) → script (k + m) = .content →
      m + 1 ≤ fuel →
      ∃ st' evs, getUrlAux script rng url fuel k st = some st' ∧
        st'.trace = st.trace ++ evs ∧ st'.buf = st.buf ∧
        navCount evs = m + 1 ∧ (∀ v, Ev.navTo v ∈ evs → v = url) ∧
        slpCount evs = m ∧ (∀ d, Ev.sleepSec d ∈ evs → 10 ≤ d ∧ d ≤ 20) := by
  intro m
  induction m with
  | zero =>
    intro k fuel st _ hc hf
    match fuel, hf with
    | fuel + 1, _ =>
      refine ⟨emit st (.navTo url), [.navTo url], ?_, by simp [emit], by simp [emit], ?_, ?_, ?_, ?_⟩
      · simp only [getUrlAux]
        rw [show script k = .content from by simpa using hc]
      · simp [navCount_cons_nav, navCount_nil]
      · intro v hv
        have := List.mem_singleton.mp hv
        cases this; rfl
      · simp [slpCount_cons_nav, slpCount_nil]
      · intro d hd; simp at hd
  | succ m ih =>
    intro k fuel st hb hc hf
    match fuel, hf with
    | fuel + 1, hf =>
      have hb0 : script k = .blocked := by simpa using hb 0 (Nat.succ_pos m)
      have hrec := ih (k + 1) fuel
        (emit (emit st (.navTo url)) (.sleepSec (10 + rng k % 11)))
        (fun j hj => by
          have := hb (j + 1) (Nat.succ_lt_succ hj)
          simpa [Nat.add_assoc, Nat.add_comm 1 j] using this)
        (by simpa [Nat.add_assoc, Nat.add_comm 1 m] using hc)
        (by omega)
      obtain ⟨st', evs, h1, h2, h3, h4, h5, h6, h7⟩ := hrec
      refine ⟨st', .navTo url :: .sleepSec (10 + rng k % 11) :: evs, ?_, ?_, ?_, ?_, ?_, ?_, ?_⟩
      · simp only [getUrlAux, hb0]
        exact h1
      · simp [emit, List.append_assoc] at h2 ⊢
        simpa using h2
      · simpa [emit] using h3
      · rw [navCount_cons_nav, navCount_cons_sleep, h4]
      · intro v hv
        rcases List.mem_cons.mp hv with h | h
        · cases h; rfl
        · rcases List.mem_cons.mp h with h' | h'
          · cases h'
          · exact h5 v h'
      · rw [slpCount_cons_nav, slpCount_cons_sleep, h6]
      · intro d hd
        rcases List.mem_cons.mp hd with h | h
        · cases h
        · rcases List.mem_cons.mp h with h' | h'
          · cases h'
            constructor
            · omega
            · have : rng k % 11 < 11 := Nat.mod_lt _ (by omega)
              omega
          · exact h7 d h'

/-- Claim C8: a driver that reports the access-restricted title on the
first `n` navigations and then serves content makes `__get_url` retry
the same URL unboundedly — it completes successfully, performing
exactly `n+1` navigations (all to the same URL, no more than
necessary) and exactly `n` backoff sleeps, each of a randomized
duration in `[10, 20]` seconds.  With `n = 2` (blocked twice): three
navigations and two backoff sleeps. -/
theorem c8_soft_block_retry (n fuel : Nat) (rng : Nat → Nat) (url : String) (st : St)
    (h : n + 1 ≤ fuel) :
    ∃ st' evs, getUrlRun (blockScript n) rng url fuel st = some st' ∧
      st'.trace = st.trace ++ evs ∧ st'.buf = st.buf ∧
      navCount evs = n + 1 ∧ (∀ v, Ev.navTo v ∈ evs → v = url) ∧
      slpCount evs = n ∧ (∀ d, Ev.sleepSec d ∈ evs → 10 ≤ d ∧ d ≤ 20) :=
  getUrl_blocked_aux (blockScript n) rng url n 0 fuel st
    (fun j hj => by simp [blockScript, hj]) (by simp [blockScript]) h

/-- Witness for C8 at the claim's scenario: blocked twice
(`blockScript 2`), fuel 3. -/
theorem c8_soft_block_retry_witness :
    2 + 1 ≤ 3 ∧
    ∃ st' evs, getUrlRun (blockScript 2) zeroRng "https://u" 3 initSt = some st' ∧
      st'.trace = initSt.trace ++ evs ∧ st'.buf = initSt.buf ∧
      navCount evs = 2 + 1 ∧ (∀ v, Ev.navTo v ∈ evs → v = "https://u") ∧
      slpCount evs = 2 ∧ (∀ d, Ev.sleepSec d ∈ evs → 10 ≤ d ∧ d ≤ 20) :=
  ⟨by decide, c8_soft_block_retry 2 3 zeroRng "https://u" initSt (by decide)⟩

/-! ## Per-ad trace structure (claims C6, C7) -/

theorem adSuccess_trace (f : AdFields) (u : String) (st : St) :
    (adSuccess f u st).trace =
      st.trace ++ (Ev.navTo f.url :: Ev.sleepSec 2 :: Ev.append (mkRecord f) ::
        ((if 2000 ≤ st.buf.length + 1 then [Ev.flush (st.buf ++ [mkRecord f])] else []) ++
         [Ev.navTo u, Ev.sleepSec 1])) := by
  by_cases h : 2000 ≤ st.buf.length + 1 <;>
    simp [adSuccess, emit, h, List.length_append, List.append_assoc]

theorem adSuccess_buf (f : AdFields) (u : String) (st : St) :
    (adSuccess f u st).buf =
      if 2000 ≤ st.buf.length + 1 then [] else st.buf ++ [mkRecord f] := by
  by_cases h : 2000 ≤ st.buf.length + 1 <;>
    simp [adSuccess, emit, h, List.length_append]

theorem adSuccess_clock (f : AdFields) (u : String) (st : St) :
    (adSuccess f u st).clock = st.clock := by
  by_cases h : 2000 ≤ st.buf.length + 1 <;>
    simp [adSuccess, emit, h, List.length_append]

/-- Trace shape of the per-ad retry loop: the new events end with the
navigate-back-and-pause pair exactly when a record was appended; when
no record was appended (fault paths) the new events are only
collection re-resolutions and 1-second retry sleeps — in particular no
navigation at all. -/
theorem runAdAux_evs (att : Nat → Attempt) (u : String) :
    ∀ r k st, ∃ evs, (runAdAux att u r k st).trace = st.trace ++ evs ∧
      ((∃ a, Ev.append a ∈ evs) → ∃ pre, evs = pre ++ [Ev.navTo u, Ev.sleepSec 1]) ∧
      ((∀ a, Ev.append a ∉ evs) → ∀ e ∈ evs, e = Ev.resolve ∨ e = Ev.sleepSec 1) := by
  intro r
  induction r with
  | zero =>
    intro k st
    refine ⟨[], by simp [runAdAux], ?_, ?_⟩
    · rintro ⟨a, ha⟩; cases ha
    · intro _ e he; cases he
  | succ r ih =>
    intro k st
    cases hatt : att k with
    | stale =>
      obtain ⟨evs, h1, h2, h3⟩ := ih (k + 1) (emit (emit st .resolve) (.sleepSec 1))
      refine ⟨.resolve :: .sleepSec 1 :: evs, ?_, ?_, ?_⟩
      · simp only [runAdAux, hatt]
        rw [h1]; simp [emit, List.append_assoc]
      · rintro ⟨a, ha⟩
        rcases List.mem_cons.mp ha with h | h
        · cases h
        rcases List.mem_cons.mp h with h' | h'
        · cases h'
        obtain ⟨pre, hpre⟩ := h2 ⟨a, h'⟩
        exact ⟨.resolve :: .sleepSec 1 :: pre, by rw [hpre]; simp⟩
      · intro hno e he
        rcases List.mem_cons.mp he with h | h
        · exact Or.inl h
        rcases List.mem_cons.mp h with h' | h'
        · exact Or.inr h'
        exact h3 (fun a ha => hno a (by simp [ha])) e h'
    | err =>
      refine ⟨[.resolve], ?_, ?_, ?_⟩
      · simp [runAdAux, hatt, emit]
      · rintro ⟨a, ha⟩
        rcases List.mem_cons.mp ha with h | h
        · cases h
        · cases h
      · intro _ e he
        rcases List.mem_cons.mp he with h | h
        · exact Or.inl h
        · cases h
    | fields f =>
      by_cases hp : (pyIntParse f.price).isNone
      · refine ⟨[.resolve], ?_, ?_, ?_⟩
        · simp only [runAdAux, hatt]
          rw [if_pos hp]
          simp [emit]
        · rintro ⟨a, ha⟩
          rcases List.mem_cons.mp ha with h | h
          · cases h
          · cases h
        · intro _ e he
          rcases List.mem_cons.mp he with h | h
          · exact Or.inl h
          · cases h
      · refine ⟨.resolve :: (Ev.navTo f.url :: Ev.sleepSec 2 :: Ev.append (mkRecord f) ::
          ((if 2000 ≤ st.buf.length + 1 then [Ev.flush (st.buf ++ [mkRecord f])] else []) ++
           [Ev.navTo u, Ev.sleepSec 1])), ?_, ?_, ?_⟩
        · simp only [runAdAux, hatt]
          rw [if_neg hp, adSuccess_trace]
          simp [emit, List.append_assoc]
        · intro _
          exact ⟨.resolve :: Ev.navTo f.url :: Ev.sleepSec 2 :: Ev.append (mkRecord f) ::
            (if 2000 ≤ st.buf.length + 1 then [Ev.flush (st.buf ++ [mkRecord f])] else []),
            by simp [List.append_assoc]⟩
        · intro hno
          exact absurd (by simp : Ev.append (mkRecord f) ∈ _) (hno (mkRecord f))

theorem runAdAux_clock (att : Nat → Attempt) (u : String) :
    ∀ r k st, (runAdAux att u r k st).clock = st.clock := by
  intro r
  induction r with
  | zero => intro k st; rfl
  | succ r ih =>
    intro k st
    cases hatt : att k with
    | stale => simp [runAdAux, hatt, ih (k + 1), emit]
    | err => simp [runAdAux, hatt, emit]
    | fields f =>
      by_cases hp : (pyIntParse f.price).isNone
      · simp only [runAdAux, hatt]
        rw [if_pos hp]
        simp [emit]
      · simp only [runAdAux, hatt]
        rw [if_neg hp]
        simp [adSuccess_clock, emit]

theorem runAd_clock (a : AdScript) (u : String) (st : St) :
    (runAd a u st).clock = st.clock + 1 := by
  simp [runAd, runAdAux_clock]

theorem parsePageAds_clock (u : String) :
    ∀ (ads : List AdScript) (st : St),
      (parsePageAds ads u st).clock = st.clock + ads.length := by
  intro ads
  induction ads with
  | nil => intro st; simp [parsePageAds]
  | cons a l ih =>
    intro st
    have : parsePageAds (a :: l) u st = parsePageAds l u (runAd a u st) := rfl
    rw [this, ih, runAd_clock]
    simp [Nat.add_assoc, Nat.add_comm 1 l.length]

/-! ## Claim C6 — navigate-back after each ad -/

/-- Claim C6 counterexample: an ad whose staleness-retry budget is
exhausted (three stale attempts).  The per-ad loop produces only the
three re-resolutions and the three 1-second retry sleeps; the driver
is never navigated back to the list URL, contradicting the claim that
navigation back and a 1-second pause happen after exhausted retries as
well. -/
theorem c6_cex :
    (runAd staleAd "https://L" initSt).trace =
      [Ev.resolve, Ev.sleepSec 1, Ev.resolve, Ev.sleepSec 1, Ev.resolve, Ev.sleepSec 1] ∧
    Ev.navTo "https://L" ∉ (runAd staleAd "https://L" initSt).trace ∧
    (runAd staleAd "https://L" initSt).buf = [] := by
  decide

/-- Claim C6 (amended): after an ad whose record was appended the
collector navigates back to the saved list URL and pauses one second
(the new trace events end with exactly that pair); but on the fault
paths — exhausted staleness retries or a non-stale fault — no record
is appended and the collector does not navigate anywhere: the new
events are only collection re-resolutions and 1-second retry sleeps. -/
theorem c6_return_nav (a : AdScript) (u : String) (st : St) :
    ∃ evs, (runAd a u st).trace = st.trace ++ evs ∧
      ((∃ r, Ev.append r ∈ evs) → ∃ pre, evs = pre ++ [Ev.navTo u, Ev.sleepSec 1]) ∧
      ((∀ r, Ev.append r ∉ evs) → ∀ e ∈ evs, e = Ev.resolve ∨ e = Ev.sleepSec 1) := by
  obtain ⟨evs, h1, h2, h3⟩ := runAdAux_evs a.att u 3 0 st
  exact ⟨evs, by simpa [runAd] using h1, h2, h3⟩

/-- Witness for C6 at a successful ad: the new events end with the
navigate-back-and-pause pair. -/
theorem c6_return_nav_witness :
    ∃ evs, (runAd goodAd "https://L" initSt).trace = initSt.trace ++ evs ∧
      ((∃ r, Ev.append r ∈ evs) → ∃ pre, evs = pre ++ [Ev.navTo "https://L", Ev.sleepSec 1]) ∧
      ((∀ r, Ev.append r ∉ evs) → ∀ e ∈ evs, e = Ev.resolve ∨ e = Ev.sleepSec 1) :=
  c6_return_nav goodAd "https://L" initSt

/-! ## Claim C7 — retry budget and fault isolation -/

/-- Claim C7: a staleness fault is retried with a budget of 3 attempts
(each attempt re-resolves the element collection, the `resolve`
event), after which the ad is skipped with nothing appended; a
non-stale fault — including a price that fails integer parsing —
aborts that single ad after a single attempt with no retry; and no
per-ad fault aborts the page: the per-page loop always processes every
ad index (the clock advances by exactly the number of ads). -/
theorem c7_retry_budget (a : AdScript) (u : String) (st : St) (f : AdFields)
    (ads : List AdScript) :
    ((∀ k, a.att k = .stale) →
      runAd a u st = { st with
        trace := st.trace ++ [.resolve, .sleepSec 1, .resolve, .sleepSec 1, .resolve, .sleepSec 1],
        clock := st.clock + 1 }) ∧
    (a.att 0 = .err →
      runAd a u st = { st with trace := st.trace ++ [.resolve], clock := st.clock + 1 }) ∧
    (a.att 0 = .fields f → pyIntParse f.price = none →
      runAd a u st = { st with trace := st.trace ++ [.resolve], clock := st.clock + 1 }) ∧
    (parsePageAds ads u st).clock = st.clock + ads.length := by
  refine ⟨fun h => ?_, fun h => ?_, fun h hp => ?_, parsePageAds_clock u ads st⟩
  · cases st
    simp [runAd, runAdAux, h 0, h 1, h 2, emit, List.append_assoc]
  · cases st
    simp [runAd, runAdAux, h, emit]
  · cases st
    simp only [runAd, runAdAux, h]
    rw [if_pos (by simp [hp])]
    simp [emit]

/-- Witness for C7: the all-stale ad uses exactly its 3 attempts and
is skipped; a one-ad page advances the clock by one. -/
theorem c7_retry_budget_witness :
    runAd staleAd "https://L" bigSt = { bigSt with
      trace := bigSt.trace ++ [.resolve, .sleepSec 1, .resolve, .sleepSec 1, .resolve, .sleepSec 1],
      clock := bigSt.clock + 1 } ∧
    (parsePageAds [goodAd] "https://L" bigSt).clock = bigSt.clock + [goodAd].length :=
  ⟨(c7_retry_budget staleAd "https://L" bigSt badPriceF [goodAd]).1 (fun _ => rfl),
   (c7_retry_budget staleAd "https://L" bigSt badPriceF [goodAd]).2.2.2⟩

/-! ## Claim C4 — flush at the 2000-record threshold -/

theorem runAdAux_buf_lt (att : Nat → Attempt) (u : String) :
    ∀ r k st, st.buf.length < 2000 → (runAdAux att u r k st).buf.length < 2000 := by
  intro r
  induction r with
  | zero => intro k st h; exact h
  | succ r ih =>
    intro k st h
    cases hatt : att k with
    | stale =>
      simp only [runAdAux, hatt]
      exact ih (k + 1) _ (by simpa [emit] using h)
    | err => simpa [runAdAux, hatt, emit] using h
    | fields f =>
      by_cases hp : (pyIntParse f.price).isNone
      · simp only [runAdAux, hatt]
        rw [if_pos hp]
        simpa [emit] using h
      · simp only [runAdAux, hatt]
        rw [if_neg hp]
        rw [show ((adSuccess f u (emit st .resolve)).buf.length < 2000) ↔ _ from by rw [adSuccess_buf]]
        by_cases h2 : 2000 ≤ (emit st .resolve).buf.length + 1
        · simp [h2]
        · simp only [if_neg h2, List.length_append]
          simp [emit] at h2 ⊢
          omega

theorem runAd_buf_lt (a : AdScript) (u : String) (st : St)
    (h : st.buf.length < 2000) : (runAd a u st).buf.length < 2000 := by
  simpa [runAd] using runAdAux_buf_lt a.att u 3 0 st h

theorem parsePageAds_buf_lt (u : String) :
    ∀ (ads : List AdScript) (st : St), st.buf.length < 2000 →
      (parsePageAds ads u st).buf.length < 2000 := by
  intro ads
  induction ads with
  | nil => intro st h; exact h
  | cons a l ih =>
    intro st h
    exact ih (runAd a u st) (runAd_buf_lt a u st h)

/-- Claim C4: whenever the buffer reaches 2000 records during per-ad
collection it is flushed immediately — the flush event carries all
2000 records and is emitted before the navigate-back — and the buffer
is cleared to empty; consequently a collection step started with fewer
than 2000 buffered records (as every reachable step is, starting from
the empty buffer) ends with fewer than 2000, so the buffer length
never exceeds 2000 after any collection step. -/
theorem c4_flush_threshold (a : AdScript) (u : String) (st : St) (f : AdFields)
    (ads : List AdScript) :
    (st.buf.length < 2000 → (runAd a u st).buf.length < 2000) ∧
    (st.buf.length < 2000 → (parsePageAds ads u st).buf.length < 2000) ∧
    (st.buf.length = 1999 →
      (adSuccess f u st).buf = [] ∧
      (adSuccess f u st).trace = st.trace ++
        [.navTo f.url, .sleepSec 2, .append (mkRecord f),
         .flush (st.buf ++ [mkRecord f]), .navTo u, .sleepSec 1]) := by
  refine ⟨runAd_buf_lt a u st, parsePageAds_buf_lt u ads st, fun h => ⟨?_, ?_⟩⟩
  · rw [adSuccess_buf, if_pos (by omega)]
  · rw [adSuccess_trace]
    rw [if_pos (by omega : 2000 ≤ st.buf.length + 1)]
    simp

/-- Witness for C4 at a buffer holding 1999 records: the next
successful ad flushes all 2000 records and clears the buffer. -/
theorem c4_flush_threshold_witness :
    bigSt.buf.length = 1999 ∧
    ((adSuccess goodF "https://L" bigSt).buf = [] ∧
     (adSuccess goodF "https://L" bigSt).trace = bigSt.trace ++
       [.navTo goodF.url, .sleepSec 2, .append (mkRecord goodF),
        .flush (bigSt.buf ++ [mkRecord goodF]), .navTo "https://L", .sleepSec 1]) :=
  ⟨by rw [show bigSt.buf = List.replicate 1999 (mkRecord goodF) from rfl, List.length_replicate],
   (c4_flush_threshold goodAd "https://L" bigSt goodF []).2.2
     (by rw [show bigSt.buf = List.replicate 1999 (mkRecord goodF) from rfl, List.length_replicate])⟩

/-! ## Claim C5 — stop signal -/

theorem paginatorAux_stopped (stopAt : Option Nat) (script : Nat → PageOutcome)
    (rng : Nat → Nat) (base : String) (c pageIdx : Nat) (url : String) (st : St)
    (h : stopSet stopAt st.clock = true) :
    paginatorAux stopAt script rng base c pageIdx url st = (st, true) := by
  cases c with
  | zero => rfl
  | succ c => simp [paginatorAux, h]

/-- Claim C5 counterexample: the stop request takes effect after the
first completed ad (`stopAt = some 1`) while the first page still has
two more ads.  Both remaining ads complete after the request — the run
finishes with clock 3, i.e. two ads completed after the stop request,
contradicting "at most one ad's processing may complete after the stop
request".  (The loop still terminates without raising, and the buffer
is flushed exactly once.) -/
theorem c5_cex :
    (paginatorE (some 1) c5script zeroRng "https://b" 2 "https://b" initSt).1.clock = 3 ∧
    (paginatorE (some 1) c5script zeroRng "https://b" 2 "https://b" initSt).2 = true ∧
    flushCount (paginatorE (some 1) c5script zeroRng "https://b" 2 "https://b" initSt).1.trace = 1 ∧
    ¬((paginatorE (some 1) c5script zeroRng "https://b" 2 "https://b" initSt).1.clock - 1 ≤ 1) := by
  decide

/-- Claim C5 (amended): the stop signal is polled only at page
boundaries, so after the stop request all remaining ads of the page in
progress may complete (the counterexample shows two).  Once the
request is visible at a page-boundary check, the loop performs no
further work at all: it terminates without raising, the state is
unchanged except for the final flush, and the buffer accumulated so
far, when non-empty, is flushed exactly once at loop exit. -/
theorem c5_stop (stopAt : Option Nat) (t : Nat) (script : Nat → PageOutcome)
    (rng : Nat → Nat) (base : String) (count : Nat) (url : String) (st : St)
    (ht : stopAt = some t) (hc : t ≤ st.clock) :
    (paginatorE stopAt script rng base count url st).2 = true ∧
    (paginatorE stopAt script rng base count url st).1 = finalFlush st ∧
    flushCount (paginatorE stopAt script rng base count url st).1.trace =
      flushCount st.trace + (if st.buf = [] then 0 else 1) := by
  have hset : stopSet stopAt st.clock = true := by simp [stopSet, ht, hc]
  have hpag := paginatorAux_stopped stopAt script rng base count 0 url st hset
  refine ⟨?_, ?_, ?_⟩
  · simp [paginatorE, hpag]
  · simp [paginatorE, hpag]
  · simp only [paginatorE, hpag]
    by_cases hb : st.buf = []
    · simp [finalFlush, hb]
    · simp [finalFlush, hb, flushCount_app, flushCount_flush]

/-- Witness for C5: a stop request already in effect at the first
page-boundary check, with one buffered record: the run ends at once
with exactly one flush. -/
theorem c5_stop_witness :
    (some 0 : Option Nat) = some 0 ∧ 0 ≤ bigSt.clock ∧
    ((paginatorE (some 0) c5script zeroRng "https://b" 2 "https://b" bigSt).2 = true ∧
     (paginatorE (some 0) c5script zeroRng "https://b" 2 "https://b" bigSt).1 = finalFlush bigSt ∧
     flushCount (paginatorE (some 0) c5script zeroRng "https://b" 2 "https://b" bigSt).1.trace =
       flushCount bigSt.trace + (if bigSt.buf = [] then 0 else 1)) :=
  ⟨rfl, Nat.zero_le _,
   c5_stop (some 0) 0 c5script zeroRng "https://b" 2 "https://b" bigSt rfl (Nat.zero_le _)⟩

/-! ## Invariant preservation (claims C3, C9) -/

theorem runInv_emit (st : St) (e : Ev) (h : RunInv st)
    (h1 : ∀ r, e ≠ .append r) (h2 : ∀ rs, e ≠ .flush rs) : RunInv (emit st e) := by
  obtain ⟨hbuf, happ, hfl⟩ := h
  refine ⟨hbuf, ?_, ?_⟩
  · intro r hr
    simp only [emit, List.mem_append, List.mem_singleton] at hr
    rcases hr with hr | hr
    · obtain ⟨pok, loc⟩ := happ r hr
      refine ⟨pok, ?_⟩
      rcases loc with loc | ⟨rs, hrs, hin⟩
      · exact Or.inl loc
      · exact Or.inr ⟨rs, by simp [emit, List.mem_append, hrs], hin⟩
    · exact absurd hr.symm (h1 r)
  · intro rs hrs
    simp only [emit, List.mem_append, List.mem_singleton] at hrs
    rcases hrs with hrs | hrs
    · exact hfl rs hrs
    · exact absurd hrs.symm (h2 rs)

theorem runInv_clock (st : St) (n : Nat) (h : RunInv st) :
    RunInv { st with clock := n } := h

theorem runInv_rused (st : St) (n : Nat) (h : RunInv st) :
    RunInv { st with rused := n } := h

theorem runInv_adSuccess (f : AdFields) (u : String) (st : St) (h : RunInv st)
    (hp : PriceOk (mkRecord f)) : RunInv (adSuccess f u st) := by
  obtain ⟨hbuf, happ, hfl⟩ := h
  have htr := adSuccess_trace f u st
  have hbf := adSuccess_buf f u st
  by_cases hth : 2000 ≤ st.buf.length + 1
  · rw [if_pos hth] at htr hbf
    have hflev : Ev.flush (st.buf ++ [mkRecord f]) ∈ (adSuccess f u st).trace := by
      rw [htr]; simp
    refine ⟨?_, ?_, ?_⟩
    · rw [hbf]; intro r hr; cases hr
    · intro r hr
      rw [htr] at hr
      simp only [List.mem_append, List.mem_cons, List.not_mem_nil, or_false] at hr
      rcases hr with hr | hr | hr | hr | hr | hr | hr
      · obtain ⟨pok, loc⟩ := happ r hr
        refine ⟨pok, Or.inr ?_⟩
        rcases loc with loc | ⟨rs, hrs, hin⟩
        · exact ⟨st.buf ++ [mkRecord f], hflev, List.mem_append_left _ loc⟩
        · exact ⟨rs, by rw [htr]; simp [List.mem_append, hrs], hin⟩
      · cases hr
      · cases hr
      · obtain rfl : r = mkRecord f := by injection hr
        exact ⟨hp, Or.inr ⟨st.buf ++ [mkRecord f], hflev, by simp⟩⟩
      · cases hr
      · cases hr
      · cases hr
    · intro rs hrs
      rw [htr] at hrs
      simp only [List.mem_append, List.mem_cons, List.not_mem_nil, or_false] at hrs
      rcases hrs with hrs | hrs | hrs | hrs | hrs | hrs | hrs
      · exact hfl rs hrs
      · cases hrs
      · cases hrs
      · cases hrs
      · obtain rfl : rs = st.buf ++ [mkRecord f] := by injection hrs
        intro r hr
        rcases List.mem_append.mp hr with hr2 | hr2
        · exact hbuf r hr2
        · rw [List.mem_singleton.mp hr2]; exact hp
      · cases hrs
      · cases hrs
  · rw [if_neg hth] at htr hbf
    refine ⟨?_, ?_, ?_⟩
    · rw [hbf]
      intro r hr
      rcases List.mem_append.mp hr with hr2 | hr2
      · exact hbuf r hr2
      · rw [List.mem_singleton.mp hr2]; exact hp
    · intro r hr
      rw [htr] at hr
      simp only [List.nil_append, List.mem_append, List.mem_cons, List.not_mem_nil,
        or_false] at hr
      rcases hr with hr | hr | hr | hr | hr | hr
      · obtain ⟨pok, loc⟩ := happ r hr
        refine ⟨pok, ?_⟩
        rcases loc with loc | ⟨rs, hrs, hin⟩
        · exact Or.inl (by rw [hbf]; exact List.mem_append_left _ loc)
        · exact Or.inr ⟨rs, by rw [htr]; simp [List.mem_append, hrs], hin⟩
      · cases hr
      · cases hr
      · obtain rfl : r = mkRecord f := by injection hr
        refine ⟨hp, Or.inl ?_⟩
        rw [hbf]; simp
      · cases hr
      · cases hr
    · intro rs hrs
      rw [htr] at hrs
      simp only [List.nil_append, List.mem_append, List.mem_cons, List.not_mem_nil,
        or_false] at hrs
      rcases hrs with hrs | hrs | hrs | hrs | hrs | hrs
      · exact hfl rs hrs
      · cases hrs
      · cases hrs
      · cases hrs
      · cases hrs
      · cases hrs

theorem runInv_runAdAux (att : Nat → Attempt) (u : String) :
    ∀ r k st, RunInv st → RunInv (runAdAux att u r k st) := by
  intro r
  induction r with
  | zero => intro k st h; exact h
  | succ r ih =>
    intro k st h
    have hres : RunInv (emit st .resolve) :=
      runInv_emit st .resolve h (fun _ h' => Ev.noConfusion h') (fun _ h' => Ev.noConfusion h')
    cases hatt : att k with
    | stale =>
      simp only [runAdAux, hatt]
      exact ih (k + 1) _ (runInv_emit _ _ hres
        (fun _ h' => Ev.noConfusion h') (fun _ h' => Ev.noConfusion h'))
    | err =>
      simp only [runAdAux, hatt]
      exact hres
    | fields f =>
      by_cases hp : (pyIntParse f.price).isNone
      · simp only [runAdAux, hatt]
        rw [if_pos hp]
        exact hres
      · simp only [runAdAux, hatt]
        rw [if_neg hp]
        refine runInv_adSuccess f u _ hres ?_
        have : (pyIntParse f.price).isSome := by
          cases hpp : pyIntParse f.price with
          | none => exact absurd (by simp [hpp]) hp
          | some k => simp
        exact this
      
theorem runInv_runAd (a : AdScript) (u : String) (st : St) (h : RunInv st) :
    RunInv (runAd a u st) :=
  runInv_clock _ _ (runInv_runAdAux a.att u 3 0 st h)

theorem runInv_parsePageAds (u : String) :
    ∀ (ads : List AdScript) (st : St), RunInv st → RunInv (parsePageAds ads u st) := by
  intro ads
  induction ads with
  | nil => intro st h; exact h
  | cons a l ih => intro st h; exact ih (runAd a u st) (runInv_runAd a u st h)

theorem runInv_parsePage (stopAt : Option Nat) (po : PageOutcome) (u : String) (st : St)
    (h : RunInv st) : RunInv (parsePage stopAt po u st).1 := by
  by_cases hs : stopSet stopAt st.clock
  · simp [parsePage, hs, h]
  · cases po with
    | raise => simp [parsePage, hs, h]
    | ads l =>
      by_cases hl : l.isEmpty
      · simp [parsePage, hs, hl, h]
      · simp only [parsePage, if_neg hs, if_neg hl]
        exact runInv_parsePageAds u l st h

theorem runInv_finalFlush (st : St) (h : RunInv st) : RunInv (finalFlush st) := by
  obtain ⟨hbuf, happ, hfl⟩ := h
  by_cases hb : st.buf = []
  · simpa [finalFlush, hb] using ⟨hbuf, happ, hfl⟩
  · simp only [finalFlush, if_neg hb]
    refine ⟨hbuf, ?_, ?_⟩
    · intro r hr
      simp only [List.mem_append, List.mem_singleton] at hr
      rcases hr with hr | hr
      · obtain ⟨pok, loc⟩ := happ r hr
        refine ⟨pok, ?_⟩
        rcases loc with loc | ⟨rs, hrs, hin⟩
        · exact Or.inl loc
        · exact Or.inr ⟨rs, by simp [List.mem_append, hrs], hin⟩
      · cases hr
    · intro rs hrs
      simp only [List.mem_append, List.mem_singleton] at hrs
      rcases hrs with hrs | hrs
      · exact hfl rs hrs
      · obtain rfl : rs = st.buf := by injection hrs
        exact hbuf

theorem runInv_paginatorAux (stopAt : Option Nat) (script : Nat → PageOutcome)
    (rng : Nat → Nat) (base : String) :
    ∀ (count pageIdx : Nat) (url : String) (st : St), RunInv st →
      RunInv (paginatorAux stopAt script rng base count pageIdx url st).1 := by
  intro count
  induction count with
  | zero => intro pageIdx url st h; exact h
  | succ c ih =>
    intro pageIdx url st h
    by_cases hs : stopSet stopAt st.clock
    · simp [paginatorAux, hs, h]
    · simp only [paginatorAux, if_neg hs]
      have h1 : RunInv (emit st (.sleepSec 1)) :=
        runInv_emit _ _ h (fun _ h' => Ev.noConfusion h') (fun _ h' => Ev.noConfusion h')
      have hpp : RunInv (parsePage stopAt (script pageIdx) url (emit st (.sleepSec 1))).1 :=
        runInv_parsePage stopAt (script pageIdx) url _ h1
      rcases hm : parsePage stopAt (script pageIdx) url (emit st (.sleepSec 1)) with ⟨st', flag⟩
      rw [hm] at hpp
      cases flag with
      | false => exact hpp
      | true =>
        apply ih
        refine runInv_emit _ _ (runInv_emit _ _ (runInv_rused _ _ hpp) ?_ ?_) ?_ ?_ <;>
          exact fun _ h' => Ev.noConfusion h'

theorem runInv_paginatorE (stopAt : Option Nat) (script : Nat → PageOutcome)
    (rng : Nat → Nat) (base : String) (count : Nat) (url : String) (st : St)
    (h : RunInv st) : RunInv (paginatorE stopAt script rng base count url st).1 := by
  have hp := runInv_paginatorAux stopAt script rng base count 0 url st h
  rcases hm : paginatorAux stopAt script rng base count 0 url st with ⟨st', flag⟩
  rw [hm] at hp
  cases flag with
  | false => simpa [paginatorE, hm] using hp
  | true => simpa [paginatorE, hm] using runInv_finalFlush st' hp

theorem runInv_parseRun (stopAt : Option Nat) (script : Nat → PageOutcome)
    (rng : Nat → Nat) (base : String) (count : Nat) (url : String) (st : St)
    (h : RunInv st) : RunInv (parseRun stopAt script rng base count url st).final := by
  have h1 : RunInv (emit st (.navTo url)) :=
    runInv_emit _ _ h (fun _ h' => Ev.noConfusion h') (fun _ h' => Ev.noConfusion h')
  have hp := runInv_paginatorE stopAt script rng base count url (emit st (.navTo url)) h1
  rcases hm : paginatorE stopAt script rng base count url (emit st (.navTo url)) with ⟨st', flag⟩
  rw [hm] at hp
  cases flag with
  | false => simpa [parseRun, hm] using runInv_finalFlush st' hp
  | true => simpa [parseRun, hm] using hp

theorem runInv_init : RunInv initSt := by
  refine ⟨?_, ?_, ?_⟩ <;> intro x hx <;> cases hx

/-! ## Claim C3 — appended records have integer-parsable prices -/

/-- Claim C3: in any run from the initial (empty-buffer) state, every
record that the collection loop ever appends — and hence every record
ever flushed to output and every record left in the buffer — has a
price that parses as an integer.  An ad whose price fails `int(...)`
is skipped before the append. -/
theorem c3_price_parses (stopAt : Option Nat) (script : Nat → PageOutcome) (rng : Nat → Nat)
    (base : String) (count : Nat) (url : String) :
    (∀ r, Ev.append r ∈ (parseRun stopAt script rng base count url initSt).final.trace →
      (pyIntParse r.price).isSome) ∧
    (∀ rs, Ev.flush rs ∈ (parseRun stopAt script rng base count url initSt).final.trace →
      ∀ r ∈ rs, (pyIntParse r.price).isSome) ∧
    (∀ r ∈ (parseRun stopAt script rng base count url initSt).final.buf,
      (pyIntParse r.price).isSome) := by
  obtain ⟨hbuf, happ, hfl⟩ := runInv_parseRun stopAt script rng base count url initSt runInv_init
  exact ⟨fun r hr => (happ r hr).1, hfl, hbuf⟩

/-- Witness for C3: in the concrete 3-ad run, the appended record for
the well-formed ad indeed carries the integer-parsable price
`"3500000"`. -/
theorem c3_price_parses_witness :
    (pyIntParse (mkRecord goodF).price).isSome :=
  (c3_price_parses none c5script zeroRng "https://b" 1 "https://b").1
    (mkRecord goodF) (by decide)

/-! ## Claim C9 — fatal error still flushes, releases, does not re-raise -/

/-- Claim C9: when an exception escapes the page loop, `parse` catches
it at the outermost scope: it does not re-raise to its caller, the
browser session is released on that exit path, and every record that
was ever appended ends up in some flush event of the final trace — the
buffered records are flushed before the run ends, so no collected data
is silently dropped. -/
theorem c9_fatal_flush (stopAt : Option Nat) (script : Nat → PageOutcome) (rng : Nat → Nat)
    (base : String) (count : Nat) (url : String)
    (h : (paginatorE stopAt script rng base count url (emit initSt (.navTo url))).2 = false) :
    (parseRun stopAt script rng base count url initSt).released = true ∧
    (parseRun stopAt script rng base count url initSt).raised = false ∧
    (∀ r, Ev.append r ∈ (parseRun stopAt script rng base count url initSt).final.trace →
      ∃ rs, Ev.flush rs ∈ (parseRun stopAt script rng base count url initSt).final.trace ∧
        r ∈ rs) := by
  have hinv := runInv_paginatorE stopAt script rng base count url
    (emit initSt (.navTo url))
    (runInv_emit _ _ runInv_init (fun _ h' => Ev.noConfusion h') (fun _ h' => Ev.noConfusion h'))
  rcases hm : paginatorE stopAt script rng base count url (emit initSt (.navTo url))
    with ⟨st', flag⟩
  rw [hm] at hinv h
  obtain rfl : flag = false := h
  have hrun : parseRun stopAt script rng base count url initSt =
      ⟨finalFlush st', true, false⟩ := by
    simp [parseRun, hm]
  rw [hrun]
  refine ⟨rfl, rfl, ?_⟩
  intro r hr
  obtain ⟨hbuf, happ, hfl⟩ := hinv
  have hr' : Ev.append r ∈ st'.trace := by
    by_cases hb : st'.buf = []
    · simpa [finalFlush, hb] using hr
    · simp only [finalFlush, if_neg hb, List.mem_append, List.mem_singleton] at hr
      rcases hr with hr | hr
      · exact hr
      · cases hr
  obtain ⟨_, loc⟩ := happ r hr'
  rcases loc with loc | ⟨rs, hrs, hin⟩
  · have hb : st'.buf ≠ [] := by
      intro hb; rw [hb] at loc; cases loc
    refine ⟨st'.buf, ?_, loc⟩
    simp [finalFlush, if_neg hb]
  · refine ⟨rs, ?_, hin⟩
    by_cases hb : st'.buf = []
    · simpa [finalFlush, hb] using hrs
    · simp [finalFlush, if_neg hb, List.mem_append, hrs]

/-- Witness for C9: the concrete run whose second page raises from
`find_elements` with one buffered record. -/
theorem c9_fatal_flush_witness :
    (paginatorE none c9script zeroRng "https://b" 2 "https://b"
      (emit initSt (.navTo "https://b"))).2 = false ∧
    ((parseRun none c9script zeroRng "https://b" 2 "https://b" initSt).released = true ∧
     (parseRun none c9script zeroRng "https://b" 2 "https://b" initSt).raised = false ∧
     (∀ r, Ev.append r ∈ (parseRun none c9script zeroRng "https://b" 2 "https://b" initSt).final.trace →
       ∃ rs, Ev.flush rs ∈ (parseRun none c9script zeroRng "https://b" 2 "https://b" initSt).final.trace ∧
         r ∈ rs)) :=
  ⟨by decide, c9_fatal_flush none c9script zeroRng "https://b" 2 "https://b" (by decide)⟩

/-! ## Character facts for the area-pattern equivalence (claims C2, C10) -/

theorem space_not_digit (c : Char) (h : isPySpace c = true) : isPyDigit c = false := by
  simp only [isPySpace, Bool.or_eq_true, Bool.and_eq_true, beq_iff_eq,
    decide_eq_true_eq] at h
  rw [Bool.eq_false_iff]
  intro hd
  simp only [isPyDigit, Bool.and_eq_true, decide_eq_true_eq] at hd
  omega

theorem space_not_sep (c : Char) (h : isPySpace c = true) : c ≠ '.' ∧ c ≠ ',' := by
  constructor <;> intro hc <;> rw [hc] at h <;> exact absurd h (by decide)

theorem ciEq_elim (p c : Char) (h : ciEq p c = true) :
    c = p ∨ c.toNat + 0x20 = p.toNat := by
  simp only [ciEq, Bool.or_eq_true, Bool.and_eq_true, beq_iff_eq,
    decide_eq_true_eq] at h
  rcases h with (h | h) | h
  · exact Or.inl h.symm
  · exact Or.inr h.2
  · exact Or.inr h.2

theorem unit_head_props (c : Char)
    (h : c.toNat = 0x43c ∨ c.toNat = 0x41c ∨ c.toNat = 0x43a ∨ c.toNat = 0x41a) :
    isPyDigit c = false ∧ isPySpace c = false ∧ c ≠ '.' ∧ c ≠ ',' := by
  refine ⟨?_, ?_, ?_, ?_⟩
  · rw [Bool.eq_false_iff]
    intro hd
    simp only [isPyDigit, Bool.and_eq_true, decide_eq_true_eq] at hd
    omega
  · rw [Bool.eq_false_iff]
    intro hd
    simp only [isPySpace, Bool.or_eq_true, Bool.and_eq_true, beq_iff_eq,
      decide_eq_true_eq] at hd
    omega
  · intro h'
    rw [h'] at h
    rcases h with h | h | h | h <;> exact absurd h (by decide)
  · intro h'
    rw [h'] at h
    rcases h with h | h | h | h <;> exact absurd h (by decide)

theorem matchUnit_nil : matchUnit [] = false := rfl

theorem ciPref_cons (p : Char) (ps cs : List Char) (h : ciPref (p :: ps) cs = true) :
    ∃ c cs2, cs = c :: cs2 ∧ ciEq p c = true := by
  cases cs with
  | nil => exact absurd h (by rw [show ciPref (p :: ps) [] = false from rfl]; simp)
  | cons c cs2 =>
    refine ⟨c, cs2, rfl, ?_⟩
    rw [show ciPref (p :: ps) (c :: cs2) = (ciEq p c && ciPref ps cs2) from rfl] at h
    simp only [Bool.and_eq_true] at h
    exact h.1

/-- Every string accepted by the unit alternation starts with `м`, `М`,
`к` or `К` — a character that is neither a digit, nor whitespace, nor
a decimal separator. -/
theorem matchUnit_head (r : List Char) (h : matchUnit r = true) :
    ∃ c r2, r = c :: r2 ∧ isPyDigit c = false ∧ isPySpace c = false ∧
      c ≠ '.' ∧ c ≠ ',' := by
  cases r with
  | nil => exact absurd h (by decide)
  | cons c r2 =>
    refine ⟨c, r2, rfl, ?_⟩
    have hc : ciEq 'м' c = true ∨ ciEq 'к' c = true := by
      simp only [matchUnit, Bool.or_eq_true, Bool.and_eq_true] at h
      rcases h with (h | ⟨h, _⟩) | h
      · left
        obtain ⟨c', cs2, heq, hci⟩ := ciPref_cons _ _ _ h
        obtain rfl : c = c' := by injection heq
        exact hci
      · right
        obtain ⟨c', cs2, heq, hci⟩ := ciPref_cons _ _ _ h
        obtain rfl : c = c' := by injection heq
        exact hci
      · right
        obtain ⟨c', cs2, heq, hci⟩ := ciPref_cons _ _ _ h
        obtain rfl : c = c' := by injection heq
        exact hci
    apply unit_head_props
    rcases hc with hc | hc <;> rcases ciEq_elim _ _ hc with hc2 | hc2
    · rw [hc2]; left; rfl
    · right; left
      have : ('м').toNat = 0x43c := rfl
      omega
    · rw [hc2]; right; right; left; rfl
    · right; right; right
      have : ('к').toNat = 0x43a := rfl
      omega

theorem matchNum_def (cs : List Char) :
    matchNum cs =
      if cs.takeWhile isPyDigit = [] then none
      else
        match cs.dropWhile isPyDigit with
        | c :: rest2 =>
          if c = '.' ∨ c = ',' then
            if rest2.takeWhile isPyDigit = [] then
              some (cs.takeWhile isPyDigit, cs.dropWhile isPyDigit)
            else
              some (cs.takeWhile isPyDigit ++ c :: rest2.takeWhile isPyDigit,
                rest2.dropWhile isPyDigit)
          else some (cs.takeWhile isPyDigit, cs.dropWhile isPyDigit)
        | [] => some (cs.takeWhile isPyDigit, []) := rfl

theorem matchAt_def (cs : List Char) :
    matchAt cs =
      match matchNum cs with
      | none => none
      | some nr => if matchUnit (nr.2.dropWhile isPySpace) then some nr.1 else none := rfl

/-- The character following the digit group in a decomposed match is
never a digit (it is a separator, whitespace, or a unit-token head). -/
theorem head_not_digit_of (frac sp rest : List Char) (hf : FracOk frac)
    (hsp : ∀ c ∈ sp, isPySpace c = true) (hu : matchUnit rest = true) :
    ∀ c, (frac ++ sp ++ rest).head? = some c → isPyDigit c = false := by
  intro c hc
  cases frac with
  | cons c0 f' =>
    have hce : c0 = c := by simpa using hc
    rcases hf with hf | ⟨c1, ds, heq, hsep, _, _⟩
    · cases hf
    · have hce2 : c0 = c1 := by injection heq
      rw [← hce, hce2]
      rcases hsep with rfl | rfl <;> decide
  | nil =>
    cases sp with
    | cons s sp' =>
      have hce : s = c := by simpa using hc
      rw [← hce]
      exact space_not_digit s (hsp s (by simp))
    | nil =>
      obtain ⟨c0, r0, hr, hd0, _, _, _⟩ := matchUnit_head rest hu
      have hce : c0 = c := by rw [hr] at hc; simpa using hc
      rw [← hce]
      exact hd0

/-- The spaces-then-unit tail also starts with a non-digit. -/
theorem head_not_digit_sp (sp rest : List Char)
    (hsp : ∀ c ∈ sp, isPySpace c = true) (hu : matchUnit rest = true) :
    ∀ c, (sp ++ rest).head? = some c → isPyDigit c = false := by
  intro c hc
  cases sp with
  | cons s sp' =>
    have hce : s = c := by simpa using hc
    rw [← hce]
    exact space_not_digit s (hsp s (by simp))
  | nil =>
    obtain ⟨c0, r0, hr, hd0, _, _, _⟩ := matchUnit_head rest hu
    have hce : c0 = c := by rw [hr] at hc; simpa using hc
    rw [← hce]
    exact hd0

/-- Skipping the whitespace of a decomposed match lands exactly on the
unit token. -/
theorem dropWhile_sp (sp rest : List Char)
    (hsp : ∀ c ∈ sp, isPySpace c = true) (hu : matchUnit rest = true) :
    (sp ++ rest).dropWhile isPySpace = rest := by
  obtain ⟨c0, r0, hr, _, hs0, _, _⟩ := matchUnit_head rest hu
  refine (takeWhile_app_of sp _ hsp (fun c hc => ?_)).2
  have hce : c0 = c := by rw [hr] at hc; simpa using hc
  rw [← hce]
  exact hs0


theorem matchNum_eq_nil (cs : List Char) (hds : cs.takeWhile isPyDigit ≠ [])
    (h : cs.dropWhile isPyDigit = []) :
    matchNum cs = some (cs.takeWhile isPyDigit, []) := by
  rw [matchNum_def, if_neg hds, h]

theorem matchNum_eq_nosep (cs : List Char) (c : Char) (rest2 : List Char)
    (hds : cs.takeWhile isPyDigit ≠ []) (h : cs.dropWhile isPyDigit = c :: rest2)
    (hsep : ¬(c = '.' ∨ c = ',')) :
    matchNum cs = some (cs.takeWhile isPyDigit, c :: rest2) := by
  rw [matchNum_def, if_neg hds, h]
  simp only [if_neg hsep]

theorem matchNum_eq_sep_nofrac (cs : List Char) (c : Char) (rest2 : List Char)
    (hds : cs.takeWhile isPyDigit ≠ []) (h : cs.dropWhile isPyDigit = c :: rest2)
    (hsep : c = '.' ∨ c = ',') (hds2 : rest2.takeWhile isPyDigit = []) :
    matchNum cs = some (cs.takeWhile isPyDigit, c :: rest2) := by
  rw [matchNum_def, if_neg hds, h]
  simp only [if_pos hsep, if_pos hds2]

theorem matchNum_eq_sep_frac (cs : List Char) (c : Char) (rest2 : List Char)
    (hds : cs.takeWhile isPyDigit ≠ []) (h : cs.dropWhile isPyDigit = c :: rest2)
    (hsep : c = '.' ∨ c = ',') (hds2 : rest2.takeWhile isPyDigit ≠ []) :
    matchNum cs = some (cs.takeWhile isPyDigit ++ c :: rest2.takeWhile isPyDigit,
      rest2.dropWhile isPyDigit) := by
  rw [matchNum_def, if_neg hds, h]
  simp only [if_pos hsep, if_neg hds2]

theorem matchNum_eq_none (cs : List Char) (hds : cs.takeWhile isPyDigit = []) :
    matchNum cs = none := by
  rw [matchNum_def, if_pos hds]

theorem matchAt_of_num (cs num rest : List Char) (hmn : matchNum cs = some (num, rest)) :
    matchAt cs = if matchUnit (rest.dropWhile isPySpace) then some num else none := by
  rw [matchAt_def, hmn]

theorem spec_of_no_frac (cs num : List Char) (hds : cs.takeWhile isPyDigit ≠ [])
    (t : List Char) (hrest : cs.dropWhile isPyDigit = t)
    (hg : matchUnit (t.dropWhile isPySpace) = true)
    (hnum : num = cs.takeWhile isPyDigit) : SpecMatchAt cs num := by
  refine ⟨cs.takeWhile isPyDigit, [], t.takeWhile isPySpace, t.dropWhile isPySpace, ?_,
    hds, mem_takeWhile_p cs, Or.inl rfl, mem_takeWhile_p t, hg, by rw [hnum]; simp⟩
  have h1 := List.takeWhile_append_dropWhile (p := isPySpace) (l := t)
  have h3 := List.takeWhile_append_dropWhile (p := isPyDigit) (l := cs)
  conv_lhs => rw [← h3, hrest, ← h1]
  simp [List.append_assoc]

theorem spec_of_frac (cs num : List Char) (hds : cs.takeWhile isPyDigit ≠ [])
    (c : Char) (rest2 : List Char) (hrest : cs.dropWhile isPyDigit = c :: rest2)
    (hsep : c = '.' ∨ c = ',') (hds2 : rest2.takeWhile isPyDigit ≠ [])
    (hg : matchUnit ((rest2.dropWhile isPyDigit).dropWhile isPySpace) = true)
    (hnum : num = cs.takeWhile isPyDigit ++ c :: rest2.takeWhile isPyDigit) :
    SpecMatchAt cs num := by
  refine ⟨cs.takeWhile isPyDigit, c :: rest2.takeWhile isPyDigit,
    (rest2.dropWhile isPyDigit).takeWhile isPySpace,
    (rest2.dropWhile isPyDigit).dropWhile isPySpace, ?_, hds, mem_takeWhile_p cs,
    Or.inr ⟨c, rest2.takeWhile isPyDigit, rfl, hsep, hds2, mem_takeWhile_p rest2⟩,
    mem_takeWhile_p _, hg, hnum⟩
  have h1 := List.takeWhile_append_dropWhile (p := isPySpace) (l := rest2.dropWhile isPyDigit)
  have h2 := List.takeWhile_append_dropWhile (p := isPyDigit) (l := rest2)
  have h3 := List.takeWhile_append_dropWhile (p := isPyDigit) (l := cs)
  conv_lhs => rw [← h3, hrest, ← h2, ← h1]
  simp [List.append_assoc, List.cons_append]

/-- Soundness of the scanner at one position: a computed match is
described by the declarative pattern decomposition. -/
theorem matchAt_sound (cs num : List Char) (h : matchAt cs = some num) :
    SpecMatchAt cs num := by
  by_cases hds : cs.takeWhile isPyDigit = []
  · rw [matchAt_def, matchNum_eq_none cs hds] at h
    cases h
  · cases hrest : cs.dropWhile isPyDigit with
    | nil =>
      rw [matchAt_of_num cs _ _ (matchNum_eq_nil cs hds hrest)] at h
      rw [show (List.dropWhile isPySpace []) = [] from rfl, matchUnit_nil] at h
      simp at h
    | cons c rest2 =>
      by_cases hsep : c = '.' ∨ c = ','
      · by_cases hds2 : rest2.takeWhile isPyDigit = []
        · rw [matchAt_of_num cs _ _ (matchNum_eq_sep_nofrac cs c rest2 hds hrest hsep hds2)] at h
          by_cases hg : matchUnit ((c :: rest2).dropWhile isPySpace) = true
          · rw [if_pos hg] at h
            have hnum : cs.takeWhile isPyDigit = num := by injection h
            exact spec_of_no_frac cs num hds (c :: rest2) hrest hg hnum.symm
          · rw [if_neg hg] at h
            cases h
        · rw [matchAt_of_num cs _ _ (matchNum_eq_sep_frac cs c rest2 hds hrest hsep hds2)] at h
          by_cases hg : matchUnit ((rest2.dropWhile isPyDigit).dropWhile isPySpace) = true
          · rw [if_pos hg] at h
            have hnum : cs.takeWhile isPyDigit ++ c :: rest2.takeWhile isPyDigit = num := by
              injection h
            exact spec_of_frac cs num hds c rest2 hrest hsep hds2 hg hnum.symm
          · rw [if_neg hg] at h
            cases h
      · rw [matchAt_of_num cs _ _ (matchNum_eq_nosep cs c rest2 hds hrest hsep)] at h
        by_cases hg : matchUnit ((c :: rest2).dropWhile isPySpace) = true
        · rw [if_pos hg] at h
          have hnum : cs.takeWhile isPyDigit = num := by injection h
          exact spec_of_no_frac cs num hds (c :: rest2) hrest hg hnum.symm
        · rw [if_neg hg] at h
          cases h

/-- Completeness of the scanner at one position: a declarative pattern
decomposition is found by the computation, capturing exactly the
number (the greedy scan cannot miss or truncate it). -/
theorem matchAt_complete (cs num : List Char) (h : SpecMatchAt cs num) :
    matchAt cs = some num := by
  obtain ⟨ds, frac, sp, rest, hcs, hds, hdig, hf, hsp, hu, hnum⟩ := h
  have hcs2 : cs = ds ++ (frac ++ sp ++ rest) := by rw [hcs]; simp [List.append_assoc]
  have htd := takeWhile_app_of (p := isPyDigit) ds (frac ++ sp ++ rest) hdig
    (head_not_digit_of frac sp rest hf hsp hu)
  have h1 : cs.takeWhile isPyDigit = ds := by rw [hcs2]; exact htd.1
  have h2 : cs.dropWhile isPyDigit = frac ++ sp ++ rest := by rw [hcs2]; exact htd.2
  have hds' : cs.takeWhile isPyDigit ≠ [] := by rw [h1]; exact hds
  rcases hf with rfl | ⟨c1, ds2, rfl, hsep, hne, hdig2⟩
  · have h2' : cs.dropWhile isPyDigit = sp ++ rest := by simpa using h2
    cases sp with
    | nil =>
      obtain ⟨c0, r0, hr, _, hs0, hdot0, hcom0⟩ := matchUnit_head rest hu
      have h2'' : cs.dropWhile isPyDigit = c0 :: r0 := by
        rw [h2', hr]; simp
      have hsep0 : ¬(c0 = '.' ∨ c0 = ',') := by
        rintro (rfl | rfl)
        · exact hdot0 rfl
        · exact hcom0 rfl
      rw [matchAt_of_num cs _ _ (matchNum_eq_nosep cs c0 r0 hds' h2'' hsep0)]
      have hdw : (c0 :: r0).dropWhile isPySpace = c0 :: r0 := by
        apply dropWhile_head_false
        intro c hc
        have hce : c0 = c := by simpa using hc
        rw [← hce]; exact hs0
      rw [hdw, ← hr, if_pos hu, h1]
      rw [hnum]; simp
    | cons s sp' =>
      have h2'' : cs.dropWhile isPyDigit = s :: (sp' ++ rest) := by
        rw [h2']; simp
      have hsep_s : ¬(s = '.' ∨ s = ',') := by
        have := space_not_sep s (hsp s (by simp))
        rintro (rfl | rfl)
        · exact this.1 rfl
        · exact this.2 rfl
      rw [matchAt_of_num cs _ _ (matchNum_eq_nosep cs s (sp' ++ rest) hds' h2'' hsep_s)]
      have hdw : (s :: (sp' ++ rest)).dropWhile isPySpace = rest :=
        dropWhile_sp (s :: sp') rest hsp hu
      rw [hdw, if_pos hu, h1]
      rw [hnum]; simp
  · have h2' : cs.dropWhile isPyDigit = c1 :: (ds2 ++ (sp ++ rest)) := by
      rw [h2]; simp [List.append_assoc]
    have htd2 := takeWhile_app_of (p := isPyDigit) ds2 (sp ++ rest) hdig2
      (head_not_digit_sp sp rest hsp hu)
    have hne2 : (ds2 ++ (sp ++ rest)).takeWhile isPyDigit ≠ [] := by
      rw [htd2.1]; exact hne
    rw [matchAt_of_num cs _ _ (matchNum_eq_sep_frac cs c1 (ds2 ++ (sp ++ rest)) hds' h2' hsep hne2)]
    rw [htd2.1, htd2.2, dropWhile_sp sp rest hsp hu, if_pos hu, h1]
    rw [hnum]

theorem matchAt_nil : matchAt [] = none := rfl

theorem searchArea_some_ex :
    ∀ (cs num : List Char), searchArea cs = some num → ∃ i, matchAt (cs.drop i) = some num
  | [], num, h => by cases h
  | c :: cs, num, h => by
    cases hm : matchAt (c :: cs) with
    | some n =>
      simp only [searchArea, hm] at h
      obtain rfl : n = num := by injection h
      exact ⟨0, hm⟩
    | none =>
      simp only [searchArea, hm] at h
      obtain ⟨i, hi⟩ := searchArea_some_ex cs num h
      exact ⟨i + 1, hi⟩

theorem searchArea_first :
    ∀ (cs : List Char) (i : Nat) (num : List Char), matchAt (cs.drop i) = some num →
      (∀ j, j < i → matchAt (cs.drop j) = none) → searchArea cs = some num
  | [], i, num, h, _ => by
    rw [List.drop_nil, matchAt_nil] at h
    cases h
  | c :: cs, 0, num, h, _ => by
    simp only [List.drop_zero] at h
    simp only [searchArea, h]
  | c :: cs, i + 1, num, h, hmin => by
    have h0 : matchAt (c :: cs) = none := by
      have := hmin 0 (Nat.succ_pos i)
      simpa using this
    simp only [searchArea, h0]
    exact searchArea_first cs i num (by simpa using h) (fun j hj => by
      have := hmin (j + 1) (Nat.succ_lt_succ hj)
      simpa using this)

/-! ## Claim C2 — area extraction -/

/-- Claim C2 counterexample: in `"1 м² 2м²"` the first (and only)
occurrence of a number *immediately* followed by a unit token is
`2м²`, at position 5 — under the claim `extractArea` should return
`"2"` — yet the code returns `"1"`, captured from the earlier
occurrence in which whitespace separates the number from the unit. -/
theorem c2_cex :
    specStrictMatchAt ("1 м² 2м²".data.drop 5) = some "2".data ∧
    ((List.range 5).all fun j => (specStrictMatchAt ("1 м² 2м²".data.drop j)).isNone) = true ∧
    extract_area "1 м² 2м²" = "1" ∧ ("1" : String) ≠ "2" := by
  decide

/-- Claim C2 (amended): the pattern tolerates arbitrary whitespace
between the numeric quantity and the square-meter unit token.  For
every input string, if no position matches number-optional
whitespace-unit then `extract_area` returns the empty string, and if
some position matches then `extract_area` returns exactly the numeric
substring (no normalization) of the first such occurrence. -/
theorem c2_extract_area (s : String) :
    ((∀ i num, ¬ SpecMatchAt (s.data.drop i) num) → extract_area s = "") ∧
    (∀ i num, SpecMatchAt (s.data.drop i) num →
      (∀ j num2, j < i → ¬ SpecMatchAt (s.data.drop j) num2) →
      extract_area s = String.mk num) := by
  constructor
  · intro hno
    cases hs : searchArea s.data with
    | none => simp [extract_area, hs]
    | some num =>
      obtain ⟨i, hi⟩ := searchArea_some_ex s.data num hs
      exact absurd (matchAt_sound _ _ hi) (hno i num)
  · intro i num hsp hmin
    have hm := matchAt_complete _ _ hsp
    have hfirst : searchArea s.data = some num := by
      apply searchArea_first s.data i num hm
      intro j hj
      cases hmj : matchAt (s.data.drop j) with
      | none => rfl
      | some m => exact absurd (matchAt_sound _ _ hmj) (hmin j m hj)
    simp [extract_area, hfirst]

theorem c2_before_first : ∀ j < 10, matchAt ("Квартира, 45 м²".data.drop j) = none := by
  decide

/-- Witness for C2: the title `"Квартира, 45 м²"` matches at position
10 (and nowhere earlier), yielding `"45"`. -/
theorem c2_extract_area_witness :
    SpecMatchAt ("Квартира, 45 м²".data.drop 10) "45".data ∧
    extract_area "Квартира, 45 м²" = String.mk "45".data := by
  have hsp : SpecMatchAt ("Квартира, 45 м²".data.drop 10) "45".data :=
    matchAt_sound _ _ (by decide)
  refine ⟨hsp, (c2_extract_area _).2 10 _ hsp ?_⟩
  intro j num2 hj hsp2
  have hm := matchAt_complete _ _ hsp2
  rw [c2_before_first j hj] at hm
  cases hm

/-! ## Claim C10 — whitespace between number and unit -/

/-- Claim C10: the pattern allows optional whitespace between the
number and the unit token, so adjacency is not required:
`"Квартира, 45 м²"` yields `"45"` although no position of it matches
the strict-adjacency reading, and the match survives any whitespace
inserted between the digits and the unit. -/
theorem c10_area_whitespace :
    extract_area "Квартира, 45 м²" = "45" ∧
    ((List.range 15).all fun j =>
      (specStrictMatchAt ("Квартира, 45 м²".data.drop j)).isNone) = true ∧
    ∀ sp : List Char, (∀ c ∈ sp, isPySpace c = true) →
      extract_area (String.mk ('4' :: '5' :: (sp ++ "м²".data))) = "45" := by
  refine ⟨by decide, by decide, ?_⟩
  intro sp hsp
  have hspec : SpecMatchAt ('4' :: '5' :: (sp ++ "м²".data)) ['4', '5'] :=
    ⟨['4', '5'], [], sp, "м²".data, by simp, by simp, by decide, Or.inl rfl, hsp,
      by decide, by simp⟩
  have hm := matchAt_complete _ _ hspec
  have hsearch : searchArea ('4' :: '5' :: (sp ++ "м²".data)) = some ['4', '5'] := by
    simp only [searchArea, hm]
  unfold extract_area
  rw [show (String.mk ('4' :: '5' :: (sp ++ "м²".data))).data =
    '4' :: '5' :: (sp ++ "м²".data) from rfl, hsearch]

/-- Witness for C10 with two spaces between the number and the unit. -/
theorem c10_area_whitespace_witness :
    extract_area (String.mk ('4' :: '5' :: ([' ', ' '] ++ "м²".data))) = "45" :=
  c10_area_whitespace.2.2 [' ', ' '] (by decide)
